import Mathlib

/-!
Verification of the request-orchestration and structured-response pipeline of
the Speech-To-Plan reminder application.

The embedding covers, shallowly and over lists of characters:

* the Node gateway helpers `cleanJsonResponse` and `formatDateWithCurrentYear`
  and the `POST /chat` input guard (node-server/server.js);
* the web-client polling loop `pollTranscriptionStatus` (script.js);
* the web-client recording controller (app.js) as an event step function.

JavaScript strings are modelled as `List Char` (the sources are ASCII), the
platform date parser `new Date(string)` as an explicit function parameter of
type `List Char → Option SimpleDate`, and dates in UTC calendar form.
-/

namespace SpeechToPlan

/-! ## Character and string helpers (JavaScript semantics on lists of chars) -/

/-- ASCII decimal digit test, mirroring the regex class \d used in server.js. -/
def isDigitCh (c : Char) : Bool := 48 ≤ c.toNat && c.toNat ≤ 57

/-- Whitespace recognised by String.prototype.trim (ASCII portion). -/
def jsWhitespace (c : Char) : Bool := c == ' ' || c == '\t' || c == '\n' || c == '\r'

/-- Drop leading whitespace. -/
def trimLeft : List Char → List Char
  | [] => []
  | c :: cs => if jsWhitespace c then trimLeft cs else c :: cs

/-- JavaScript String.prototype.trim on a list of characters. -/
def jsTrim (s : List Char) : List Char :=
  ((trimLeft ((trimLeft s).reverse)).reverse)

/-- Scan `hay` for the first position (counting from `i`) at which `pat`
is a prefix of the remaining list; `none` if there is no occurrence. -/
def findAux (pat : List Char) : List Char → Nat → Option Nat
  | [], i => if pat.isEmpty then some i else none
  | c :: cs, i => if pat.isPrefixOf (c :: cs) then some i else findAux pat cs (i + 1)

/-- JavaScript String.prototype.includes. -/
def jsIncludes (hay pat : List Char) : Bool := (findAux pat hay 0).isSome

/-- JavaScript String.prototype.indexOf, returning -1 when absent. -/
def jsIndexOf (hay pat : List Char) : Int :=
  match findAux pat hay 0 with
  | some i => (i : Int)
  | none => -1

/-- JavaScript String.prototype.indexOf with a start position. -/
def jsIndexOfFrom (hay pat : List Char) (start : Nat) : Int :=
  match findAux pat (hay.drop start) 0 with
  | some i => ((start + i : Nat) : Int)
  | none => -1

/-- Clamp an index argument of String.prototype.substring into [0, len]. -/
def clampIdx (len : Nat) (i : Int) : Nat := if i < 0 then 0 else min i.toNat len

/-- JavaScript String.prototype.substring: clamps both arguments and swaps
them when given out of order (this is what happens when indexOf returned -1). -/
def jsSubstring (s : List Char) (a b : Int) : List Char :=
  let x := clampIdx s.length a
  let y := clampIdx s.length b
  (s.drop (min x y)).take (max x y - min x y)

/-- JavaScript String.prototype.split on the newline character. -/
def splitLines : List Char → List (List Char)
  | [] => [[]]
  | c :: cs =>
    let r := splitLines cs
    if c = '\n' then [] :: r
    else
      match r with
      | [] => [[c]]
      | l :: ls => (c :: l) :: ls

/-- ASCII lower-casing of one character, as String.prototype.toLowerCase acts
on the ASCII inputs of the date normalizer. -/
def lowerChar (c : Char) : Char :=
  if 65 ≤ c.toNat ∧ c.toNat ≤ 90 then Char.ofNat (c.toNat + 32) else c

/-- Lower-case a whole string. -/
def lowerStr (s : List Char) : List Char := s.map lowerChar

/-! ## Calendar dates -/

/-- A calendar date, the shallow model of a JavaScript Date in UTC. -/
structure SimpleDate where
  year : Nat
  month : Nat
  day : Nat
deriving DecidableEq

/-- Gregorian leap-year rule used by JavaScript Date. -/
def isLeapYear (y : Nat) : Bool := (y % 4 = 0 && ¬ y % 100 = 0) || y % 400 = 0

/-- Number of days of a month. -/
def daysInMonth (y m : Nat) : Nat :=
  if m = 2 then (if isLeapYear y then 29 else 28)
  else if m = 4 ∨ m = 6 ∨ m = 9 ∨ m = 11 then 30
  else 31

/-- The following calendar day, the rollover semantics of Date.setDate. -/
def nextDay (d : SimpleDate) : SimpleDate :=
  if d.day < daysInMonth d.year d.month then ⟨d.year, d.month, d.day + 1⟩
  else if d.month < 12 then ⟨d.year, d.month + 1, 1⟩
  else ⟨d.year + 1, 1, 1⟩

/-- Add a number of days to a date. -/
def addDays (d : SimpleDate) : Nat → SimpleDate
  | 0 => d
  | n + 1 => nextDay (addDays d n)

/-- One decimal digit character. -/
def digitChar (n : Nat) : Char := Char.ofNat (48 + n % 10)

/-- Two-digit zero-padded rendering. -/
def pad2 (n : Nat) : List Char := [digitChar (n / 10), digitChar n]

/-- Four-digit zero-padded rendering. -/
def pad4 (n : Nat) : List Char :=
  [digitChar (n / 1000), digitChar (n / 100), digitChar (n / 10), digitChar n]

/-- Date rendering in YYYY-MM-DD form, the date part of Date.toISOString
followed by the split on T in the source. -/
def toIsoDate (d : SimpleDate) : List Char :=
  pad4 d.year ++ '-' :: (pad2 d.month ++ '-' :: pad2 d.day)

/-- One slot of the canonical-shape pattern: a decimal digit. -/
def slotDigit (c : Char) : Bool := isDigitCh c

/-- One slot of the canonical-shape pattern: a dash. -/
def slotDash (c : Char) : Bool := c == '-'

/-- Match a list of characters against a list of one-character predicates. -/
def matchesPattern : List (Char → Bool) → List Char → Bool
  | [], [] => true
  | p :: ps, c :: cs => p c && matchesPattern ps cs
  | _, _ => false

/-- The regex ^\d\x7b4\x7d-\d\x7b2\x7d-\d\x7b2\x7d$ from server.js: the
already-canonical YYYY-MM-DD shape test. -/
def isIsoShape (s : List Char) : Bool :=
  matchesPattern
    [slotDigit, slotDigit, slotDigit, slotDigit, slotDash,
     slotDigit, slotDigit, slotDash, slotDigit, slotDigit] s

/-- JavaScript Date.prototype.setFullYear keeps month and day when the day
still exists in the target year, and otherwise rolls over into the next
month (the only such case here is February 29 of a leap year, which becomes
March 1 of the non-leap target year). -/
def setFullYearJS (d : SimpleDate) (y : Nat) : SimpleDate :=
  if d.day ≤ daysInMonth y d.month then ⟨y, d.month, d.day⟩
  else ⟨y, d.month + 1, d.day - daysInMonth y d.month⟩

/-- The date normalizer formatDateWithCurrentYear of node-server/server.js.
The current date (JavaScript new Date()) is the explicit `today` argument and
the platform parser new Date(string) is the explicit `dateParse` argument,
returning `none` where the platform would produce an invalid date. -/
def formatDateWithCurrentYear (dateParse : List Char → Option SimpleDate)
    (today : SimpleDate) (dateStr : List Char) : List Char :=
  if isIsoShape dateStr then dateStr
  else if lowerStr dateStr = "tomorrow".toList then toIsoDate (addDays today 1)
  else if lowerStr dateStr = "today".toList then toIsoDate today
  else if jsIncludes (lowerStr dateStr) ("next week".toList) then toIsoDate (addDays today 7)
  else
    match dateParse dateStr with
    | some d =>
      if d.year ≠ today.year then toIsoDate (setFullYearJS d today.year)
      else toIsoDate d
    | none => dateStr

/-! ## Facts about the string helpers -/

lemma matchesPattern_length :
    ∀ (ps : List (Char → Bool)) (s : List Char),
      matchesPattern ps s = true → s.length = ps.length := by
  intro ps
  induction ps with
  | nil =>
    intro s h
    cases s with
    | nil => rfl
    | cons c cs => simp [matchesPattern] at h
  | cons p ps ih =>
    intro s h
    cases s with
    | nil => simp [matchesPattern] at h
    | cons c cs =>
      simp only [matchesPattern, Bool.and_eq_true] at h
      simp [ih cs h.2]

lemma matchesPattern_mem :
    ∀ (ps : List (Char → Bool)) (s : List Char),
      matchesPattern ps s = true → ∀ c ∈ s, ∃ p ∈ ps, p c = true := by
  intro ps
  induction ps with
  | nil =>
    intro s h c hc
    cases s with
    | nil => simp at hc
    | cons a as => simp [matchesPattern] at h
  | cons p ps ih =>
    intro s h c hc
    cases s with
    | nil => simp [matchesPattern] at h
    | cons a as =>
      simp only [matchesPattern, Bool.and_eq_true] at h
      rcases List.mem_cons.mp hc with rfl | hmem
      · exact ⟨p, List.mem_cons_self p ps, h.1⟩
      · obtain ⟨q, hq, hqc⟩ := ih as h.2 c hmem
        exact ⟨q, List.mem_cons_of_mem p hq, hqc⟩

lemma isoShape_length (s : List Char) (h : isIsoShape s = true) : s.length = 10 :=
  matchesPattern_length _ s h

lemma isoShape_chars (s : List Char) (h : isIsoShape s = true) :
    ∀ c ∈ s, isDigitCh c = true ∨ c = '-' := by
  intro c hc
  obtain ⟨p, hp, hpc⟩ := matchesPattern_mem _ s h c hc
  simp only [List.mem_cons, List.not_mem_nil, or_false] at hp
  rcases hp with rfl | rfl | rfl | rfl | rfl | rfl | rfl | rfl | rfl | rfl
  all_goals first
    | (left; exact hpc)
    | (right; simpa [slotDash] using hpc)

lemma findAux_isSome_sub (pat : List Char) :
    ∀ (hay : List Char) (i : Nat),
      (findAux pat hay i).isSome = true → ∀ c ∈ pat, c ∈ hay := by
  intro hay
  induction hay with
  | nil =>
    intro i h c hc
    by_cases hp : pat.isEmpty
    · rw [List.isEmpty_iff] at hp
      subst hp
      simp at hc
    · simp [findAux, hp] at h
  | cons a as ih =>
    intro i h c hc
    by_cases hpre : pat.isPrefixOf (a :: as)
    · exact (List.isPrefixOf_iff_prefix.mp hpre).subset hc
    · rw [findAux, if_neg hpre] at h
      exact List.mem_cons_of_mem a (ih (i + 1) h c hc)

lemma findAux_isSome_length (pat : List Char) :
    ∀ (hay : List Char) (i : Nat),
      (findAux pat hay i).isSome = true → pat.length ≤ hay.length := by
  intro hay
  induction hay with
  | nil =>
    intro i h
    by_cases hp : pat.isEmpty
    · rw [List.isEmpty_iff] at hp
      simp [hp]
    · simp [findAux, hp] at h
  | cons a as ih =>
    intro i h
    by_cases hpre : pat.isPrefixOf (a :: as)
    · exact (List.isPrefixOf_iff_prefix.mp hpre).length_le
    · rw [findAux, if_neg hpre] at h
      exact le_trans (ih (i + 1) h) (by simp)

lemma jsIncludes_sub (hay pat : List Char) (h : jsIncludes hay pat = true) :
    ∀ c ∈ pat, c ∈ hay :=
  findAux_isSome_sub pat hay 0 h

lemma jsIncludes_length_le (hay pat : List Char) (h : jsIncludes hay pat = true) :
    pat.length ≤ hay.length :=
  findAux_isSome_length pat hay 0 h

lemma lowerChar_eq_self (c : Char) (h : c.toNat < 65) : lowerChar c = c := by
  unfold lowerChar
  rw [if_neg (by omega)]

lemma lowerChar_digitOrDash (c : Char) (h : isDigitCh c = true ∨ c = '-') :
    lowerChar c = c := by
  rcases h with h | rfl
  · simp only [isDigitCh, Bool.and_eq_true, decide_eq_true_eq] at h
    exact lowerChar_eq_self c (by omega)
  · decide

/-! ## Exclusion lemmas: recognised relative phrases never look canonical -/

lemma isoShape_false_of_lower_today (s : List Char)
    (h : lowerStr s = "today".toList) : isIsoShape s = false := by
  by_contra hne
  have h10 : s.length = 10 := isoShape_length s (by revert hne; cases isIsoShape s <;> simp)
  have h5 : s.length = 5 := by
    have := congrArg List.length h
    simpa [lowerStr] using this
  omega

lemma isoShape_false_of_lower_tomorrow (s : List Char)
    (h : lowerStr s = "tomorrow".toList) : isIsoShape s = false := by
  by_contra hne
  have h10 : s.length = 10 := isoShape_length s (by revert hne; cases isIsoShape s <;> simp)
  have h8 : s.length = 8 := by
    have := congrArg List.length h
    simpa [lowerStr] using this
  omega

lemma lower_ne_tomorrow_of_nextweek (s : List Char)
    (h : jsIncludes (lowerStr s) ("next week".toList) = true) :
    lowerStr s ≠ "tomorrow".toList := by
  intro he
  have := jsIncludes_length_le _ _ h
  rw [he] at this
  simp at this

lemma lower_ne_today_of_nextweek (s : List Char)
    (h : jsIncludes (lowerStr s) ("next week".toList) = true) :
    lowerStr s ≠ "today".toList := by
  intro he
  have := jsIncludes_length_le _ _ h
  rw [he] at this
  simp at this

lemma isoShape_false_of_nextweek (s : List Char)
    (h : jsIncludes (lowerStr s) ("next week".toList) = true) :
    isIsoShape s = false := by
  by_contra hne
  have hiso : isIsoShape s = true := by revert hne; cases isIsoShape s <;> simp
  have hsp : (' ' : Char) ∈ lowerStr s :=
    jsIncludes_sub _ _ h ' ' (by decide)
  obtain ⟨c, hcs, hlc⟩ := List.mem_map.mp hsp
  have hdd := isoShape_chars s hiso c hcs
  rw [lowerChar_digitOrDash c hdd] at hlc
  subst hlc
  rcases hdd with hd | hd
  · simp [isDigitCh] at hd
  · simp at hd

/-! ## Date Normalizer claims -/

/-- C6: the Date Normalizer maps "today" to the current date, "tomorrow" to the
current date plus one day, and any input containing "next week" to the current
date plus seven days, each rendered in YYYY-MM-DD form; in particular
normalize("tomorrow") when today is 2025-06-10 yields 2025-06-11. -/
theorem formatDate_relative_phrases (dateParse : List Char → Option SimpleDate)
    (today : SimpleDate) (s : List Char) :
    (lowerStr s = "today".toList →
      formatDateWithCurrentYear dateParse today s = toIsoDate today)
    ∧ (lowerStr s = "tomorrow".toList →
      formatDateWithCurrentYear dateParse today s = toIsoDate (addDays today 1))
    ∧ (jsIncludes (lowerStr s) ("next week".toList) = true →
      formatDateWithCurrentYear dateParse today s = toIsoDate (addDays today 7))
    ∧ formatDateWithCurrentYear (fun _ => none) ⟨2025, 6, 10⟩ ("tomorrow".toList)
        = ("2025-06-11".toList) := by
  refine ⟨?_, ?_, ?_, by decide⟩
  · intro h
    simp only [formatDateWithCurrentYear]
    rw [if_neg (by simp [isoShape_false_of_lower_today s h]),
      if_neg (by rw [h]; decide), if_pos h]
  · intro h
    simp only [formatDateWithCurrentYear]
    rw [if_neg (by simp [isoShape_false_of_lower_tomorrow s h]), if_pos h]
  · intro h
    simp only [formatDateWithCurrentYear]
    rw [if_neg (by simp [isoShape_false_of_nextweek s h]),
      if_neg (lower_ne_tomorrow_of_nextweek s h),
      if_neg (lower_ne_today_of_nextweek s h), if_pos h]

/-- Witness for C6 at the spec's concrete example: normalizing "tomorrow" when
today is 2025-06-10 yields 2025-06-11. -/
theorem formatDate_relative_phrases_witness :
    formatDateWithCurrentYear (fun _ => none) ⟨2025, 6, 10⟩ ("tomorrow".toList)
      = ("2025-06-11".toList) := by
  have h := (formatDate_relative_phrases (fun _ => none) ⟨2025, 6, 10⟩
      ("tomorrow".toList)).2.1 (by decide)
  exact h.trans (by decide)

/-- C8: already-canonical YYYY-MM-DD input is returned unchanged, hence the
normalizer is idempotent on already-canonical input. -/
theorem formatDate_canonical_unchanged_idempotent
    (dateParse : List Char → Option SimpleDate) (today : SimpleDate)
    (s : List Char) (h : isIsoShape s = true) :
    formatDateWithCurrentYear dateParse today s = s
    ∧ formatDateWithCurrentYear dateParse today
        (formatDateWithCurrentYear dateParse today s)
      = formatDateWithCurrentYear dateParse today s := by
  have h1 : formatDateWithCurrentYear dateParse today s = s := by
    simp [formatDateWithCurrentYear, h]
  refine ⟨h1, ?_⟩
  rw [h1]
  exact h1

/-- Witness for C8 at the canonical input "2025-12-25". -/
theorem formatDate_canonical_witness :
    isIsoShape ("2025-12-25".toList) = true
    ∧ formatDateWithCurrentYear (fun _ => none) ⟨2025, 6, 10⟩
        ("2025-12-25".toList) = "2025-12-25".toList :=
  ⟨by decide,
    (formatDate_canonical_unchanged_idempotent (fun _ => none) ⟨2025, 6, 10⟩
      ("2025-12-25".toList) (by decide)).1⟩

/-- C7: when input is not canonical, not a recognised relative phrase, and
generic date parsing fails, the normalizer returns the original string
unchanged; it never raises (the embedding is a total function). -/
theorem formatDate_unparseable_returns_original
    (dateParse : List Char → Option SimpleDate) (today : SimpleDate)
    (s : List Char)
    (hiso : isIsoShape s = false)
    (h1 : lowerStr s ≠ "tomorrow".toList)
    (h2 : lowerStr s ≠ "today".toList)
    (h3 : jsIncludes (lowerStr s) ("next week".toList) = false)
    (hp : dateParse s = none) :
    formatDateWithCurrentYear dateParse today s = s := by
  simp only [formatDateWithCurrentYear]
  rw [if_neg (by rw [hiso]; exact Bool.false_ne_true), if_neg h1, if_neg h2, if_neg (by rw [h3]; exact Bool.false_ne_true)]
  simp [hp]

/-- Witness for C7 at the unparseable input "gibberish". -/
theorem formatDate_unparseable_witness :
    formatDateWithCurrentYear (fun _ => none) ⟨2025, 6, 10⟩ ("gibberish".toList)
      = "gibberish".toList :=
  formatDate_unparseable_returns_original (fun _ => none) ⟨2025, 6, 10⟩
    ("gibberish".toList) (by decide) (by decide) (by decide) (by decide) rfl

/-- C4: when the input is not canonical and not a recognised relative phrase,
generic parsing succeeds, and the parsed year differs from the current year,
the normalizer overwrites the year with the current year (Date.setFullYear
semantics); the result always carries the current year (never the next one),
and whenever the parsed day exists in the current year the result is exactly
the parsed month and day under the current year. -/
theorem formatDate_generic_current_year_override
    (dateParse : List Char → Option SimpleDate) (today : SimpleDate)
    (s : List Char) (d : SimpleDate)
    (hiso : isIsoShape s = false)
    (h1 : lowerStr s ≠ "tomorrow".toList)
    (h2 : lowerStr s ≠ "today".toList)
    (h3 : jsIncludes (lowerStr s) ("next week".toList) = false)
    (hp : dateParse s = some d)
    (hy : d.year ≠ today.year) :
    formatDateWithCurrentYear dateParse today s
        = toIsoDate (setFullYearJS d today.year)
    ∧ (setFullYearJS d today.year).year = today.year
    ∧ (d.day ≤ daysInMonth today.year d.month →
        formatDateWithCurrentYear dateParse today s
          = toIsoDate ⟨today.year, d.month, d.day⟩) := by
  have hmain : formatDateWithCurrentYear dateParse today s
      = toIsoDate (setFullYearJS d today.year) := by
    simp only [formatDateWithCurrentYear]
    rw [if_neg (by rw [hiso]; exact Bool.false_ne_true), if_neg h1, if_neg h2, if_neg (by rw [h3]; exact Bool.false_ne_true)]
    simp [hp, hy]
  refine ⟨hmain, ?_, ?_⟩
  · unfold setFullYearJS
    split <;> rfl
  · intro hd
    rw [hmain]
    unfold setFullYearJS
    rw [if_pos hd]

/-- Witness for C4 at the spec's example: "12-25" parsed by the platform as
December 25 of another year is rewritten to the current year's December 25. -/
theorem formatDate_generic_witness :
    formatDateWithCurrentYear
        (fun t => if t = "12-25".toList then some ⟨2024, 12, 25⟩ else none)
        ⟨2025, 6, 10⟩ ("12-25".toList)
      = "2025-12-25".toList := by
  have h := (formatDate_generic_current_year_override
      (fun t => if t = "12-25".toList then some ⟨2024, 12, 25⟩ else none)
      ⟨2025, 6, 10⟩ ("12-25".toList) ⟨2024, 12, 25⟩
      (by decide) (by decide) (by decide) (by decide) (by decide)
      (by decide)).2.2 (by decide)
  exact h.trans (by decide)

/-! ## Polling/Retry Coordinator (pollTranscriptionStatus, web-client/script.js)

One status query per iteration. The fetch of iteration r is modelled by
`fetch r`, which either raises a transport error or returns a parsed body
whose status field is a string; the `isTranscribing` flag read at iteration r
is `transcribing r` (it is mutated externally by the upload handler). The
result collects the indices of the status queries actually issued together
with the cause that ended the loop. -/

/-- Outcome of one GET /transcribe status query as seen by the loop body. -/
inductive FetchResult where
  | transportError
  | ok (status : List Char)
deriving DecidableEq

/-- Why the polling loop stopped scheduling further queries. -/
inductive PollStop where
  | exhausted
  | cancelled
  | completedDone
  | errorStatusCaught
  | transportCaught
deriving DecidableEq

/-- Continuation of the polling loop (argument `rem` counts the iterations
still allowed: the recursive call pollTranscriptionStatus(retryCount + 1)
leaves maxRetries at its default 120, so `rem` is 120 - retryCount). -/
def pollFrom (fetch : Nat → FetchResult) (transcribing : Nat → Bool) :
    Nat → Nat → List Nat × PollStop
  | 0, _ => ([], PollStop.exhausted)
  | rem + 1, r =>
    if transcribing r = false then ([], PollStop.cancelled)
    else
      match fetch r with
      | FetchResult.transportError => ([r], PollStop.transportCaught)
      | FetchResult.ok st =>
        if st = "completed".toList then ([r], PollStop.completedDone)
        else if st = "error".toList then ([r], PollStop.errorStatusCaught)
        else
          let next := pollFrom fetch transcribing rem (r + 1)
          (r :: next.1, next.2)

/-- The polling loop pollTranscriptionStatus(retryCount, maxRetries) of
web-client/script.js. Entry checks retryCount against maxRetries and the
isTranscribing flag; a completed status stops the loop, an error status
throws and is caught by the surrounding catch (which only logs), a transport
error is caught by the same catch, and any other status schedules
pollTranscriptionStatus(retryCount + 1) after one second, with maxRetries
back at its default value 120. -/
def pollTranscriptionStatus (fetch : Nat → FetchResult)
    (transcribing : Nat → Bool) (retryCount maxRetries : Nat) :
    List Nat × PollStop :=
  if maxRetries ≤ retryCount then ([], PollStop.exhausted)
  else if transcribing retryCount = false then ([], PollStop.cancelled)
  else
    match fetch retryCount with
    | FetchResult.transportError => ([retryCount], PollStop.transportCaught)
    | FetchResult.ok st =>
      if st = "completed".toList then ([retryCount], PollStop.completedDone)
      else if st = "error".toList then ([retryCount], PollStop.errorStatusCaught)
      else
        let next := pollFrom fetch transcribing (120 - (retryCount + 1)) (retryCount + 1)
        (retryCount :: next.1, next.2)

/-- A schedule of fetch outcomes on which the first query raises a transport
error while the service would have reported pending afterwards. -/
def fetchCE : Nat → FetchResult :=
  fun r => if r = 0 then FetchResult.transportError else FetchResult.ok ("pending".toList)

/-- C5 counterexample: with the transport failing on the first query and the
service pending afterwards, the loop issues only query 0 and stops with the
swallowed transport error as the cause — it does not continue with the next
scheduled query (query 1 is never issued), and no explicit error status from
the service was involved. -/
theorem pollTranscription_transport_counterexample :
    fetchCE 0 = FetchResult.transportError
    ∧ fetchCE 1 = FetchResult.ok ("pending".toList)
    ∧ pollTranscriptionStatus fetchCE (fun _ => true) 0 120
        = ([0], PollStop.transportCaught)
    ∧ ¬(1 ∈ (pollTranscriptionStatus fetchCE (fun _ => true) 0 120).1) := by
  refine ⟨rfl, rfl, rfl, ?_⟩
  decide

/-- C5 (amended): a poll iteration whose status query raises a transport
error swallows the error (the catch only logs) but terminates the loop: that
iteration's query is the last one issued and no retry is scheduled; this
holds at the entry call and at every scheduled continuation. -/
theorem pollTranscription_transport_error_terminal
    (fetch : Nat → FetchResult) (transcribing : Nat → Bool)
    (r m : Nat) (hr : r < m) (hc : transcribing r = true)
    (hf : fetch r = FetchResult.transportError) :
    pollTranscriptionStatus fetch transcribing r m = ([r], PollStop.transportCaught)
    ∧ ∀ rem r2, transcribing r2 = true → fetch r2 = FetchResult.transportError →
        pollFrom fetch transcribing (rem + 1) r2 = ([r2], PollStop.transportCaught) := by
  constructor
  · unfold pollTranscriptionStatus
    rw [if_neg (by omega), if_neg (by simp [hc]), hf]
  · intro rem r2 hc2 hf2
    unfold pollFrom
    rw [if_neg (by simp [hc2]), hf2]

/-- Witness for the amended C5 at a concrete schedule: transport error on the
very first query ends the loop at once. -/
theorem pollTranscription_transport_error_terminal_witness :
    pollTranscriptionStatus (fun _ => FetchResult.transportError) (fun _ => true) 0 120
      = ([0], PollStop.transportCaught) :=
  (pollTranscription_transport_error_terminal
    (fun _ => FetchResult.transportError) (fun _ => true) 0 120
    (by decide) rfl rfl).1

/-! ## Recording Controller (web-client/app.js)

Event-step model of the recording handlers. A start request is a click on
the startRecording button and a stop request a click on the stopRecording
button; the DOM delivers no click handler call for a disabled button, which
is the source's guard against restarting (startRecordingBtn.disabled is set
to true by startRecording and back to false by stopRecording). Audio
fragments are opaque and numbered; dataavailable events append them while the
recorder is active. The timer tick increments the elapsed second counter and
force-stops at MAX_RECORDING_TIME; the interval only runs while recording.
The asynchronous onstop upload path (which happens after the recorder has
left the recording state) is outside this model. -/

/-- State of the recording controller: the MediaRecorder activity flag
(state different from inactive), the two button disabled flags, the
accumulated audioChunks and the recordingTime second counter. -/
structure RecorderState where
  recording : Bool
  startDisabled : Bool
  stopDisabled : Bool
  audioChunks : List Nat
  recordingTime : Nat
deriving DecidableEq

/-- Events delivered to the controller. A start click carries whether
getUserMedia grants the microphone (on denial the handler only alerts). -/
inductive RecEvent where
  | clickStart (micGranted : Bool)
  | clickStop
  | dataAvailable (chunk : Nat)
  | timerTick
deriving DecidableEq

/-- Page-load state: nothing recording, no chunks. -/
def initialRecorder : RecorderState :=
  { recording := false, startDisabled := false, stopDisabled := true,
    audioChunks := [], recordingTime := 0 }

/-- The hard cap MAX_RECORDING_TIME = 60 seconds from app.js. -/
def MAX_RECORDING_TIME : Nat := 60

/-- The stopRecording function of app.js: guarded by the recorder being
active (mediaRecorder.state different from inactive); stops the recorder,
clears the interval and re-enables the start button. audioChunks stay in
place (they are consumed and reset by the asynchronous onstop handler). -/
def stopRecording (s : RecorderState) : RecorderState :=
  if s.recording then
    { s with recording := false, startDisabled := false, stopDisabled := true }
  else s

/-- One controller step for one delivered event, after the source handlers:
startRecording resets audioChunks, starts the recorder, disables start and
enables stop, and resets the timer; a disabled button never fires. -/
def recStep (s : RecorderState) : RecEvent → RecorderState
  | RecEvent.clickStart micGranted =>
    if s.startDisabled then s
    else if micGranted then
      { recording := true, startDisabled := true, stopDisabled := false,
        audioChunks := [], recordingTime := 0 }
    else s
  | RecEvent.clickStop =>
    if s.stopDisabled then s else stopRecording s
  | RecEvent.dataAvailable c =>
    if s.recording then { s with audioChunks := s.audioChunks ++ [c] } else s
  | RecEvent.timerTick =>
    if s.recording then
      let s2 := { s with recordingTime := s.recordingTime + 1 }
      if MAX_RECORDING_TIME ≤ s2.recordingTime then stopRecording s2 else s2
    else s

/-- States the controller can actually be in, from page load onward. -/
inductive Reachable : RecorderState → Prop where
  | init : Reachable initialRecorder
  | step (s : RecorderState) (e : RecEvent) : Reachable s → Reachable (recStep s e)

/-- While the recorder is active the start button is disabled: the invariant
behind the rejection of a second start request. -/
lemma recording_startDisabled (s : RecorderState) (h : Reachable s) :
    s.recording = true → s.startDisabled = true := by
  induction h with
  | init => intro hr; simp [initialRecorder] at hr
  | step s e _ ih =>
    cases e with
    | clickStart g =>
      by_cases hd : s.startDisabled
      · simp [recStep, hd]
      · cases g with
        | true => intro _; simp [recStep, hd]
        | false => simpa [recStep, hd] using ih

    | clickStop =>
      by_cases hd : s.stopDisabled
      · simpa [recStep, hd] using ih
      · by_cases hr : s.recording
        · intro hcontra
          simp [recStep, hd, stopRecording, hr] at hcontra
        · simp [recStep, hd, stopRecording, hr]
    | dataAvailable c =>
      by_cases hr : s.recording
      · simpa [recStep, hr] using ih
      · simp [recStep, hr]
    | timerTick =>
      by_cases hr : s.recording
      · by_cases hcap : MAX_RECORDING_TIME ≤ s.recordingTime + 1
        · intro hcontra
          simp [recStep, hr, hcap, stopRecording] at hcontra
        · intro _
          simp [recStep, hr, hcap]
          exact ih hr
      · simp [recStep, hr]

/-- C9: in every reachable state in which a session is recording, a further
start request is rejected outright — the step leaves the state untouched
(nothing is queued) and in particular the accumulated audioChunks list is
unchanged. -/
theorem startRecording_while_recording_rejected (s : RecorderState)
    (h : Reachable s) (hr : s.recording = true) (g : Bool) :
    recStep s (RecEvent.clickStart g) = s
    ∧ (recStep s (RecEvent.clickStart g)).audioChunks = s.audioChunks := by
  have hd : s.startDisabled = true := recording_startDisabled s h hr
  have heq : recStep s (RecEvent.clickStart g) = s := by simp [recStep, hd]
  exact ⟨heq, by rw [heq]⟩

/-- Witness for C9: start recording from the initial state, then observe that
a second start click (with the microphone granted) changes nothing. -/
theorem startRecording_while_recording_rejected_witness :
    recStep (recStep initialRecorder (RecEvent.clickStart true)) (RecEvent.clickStart true)
      = recStep initialRecorder (RecEvent.clickStart true) :=
  (startRecording_while_recording_rejected
    (recStep initialRecorder (RecEvent.clickStart true))
    (Reachable.step initialRecorder (RecEvent.clickStart true) Reachable.init)
    (by decide) true).1

/-! ## POST /chat input guard (node-server/server.js)

The handler destructures text from the request body; a missing or empty text
is JavaScript-falsy and yields an immediate 400 before anything is forwarded
to the Python server. Otherwise exactly one upstream POST carrying the text
is issued and its outcome (modelled by the `pythonChat` parameter, `none`
standing for a failed axios call) decides between forwarding the payload and
a 500 error. The second component of the result lists the texts of the
upstream requests issued while serving the request. -/

/-- A parsed request body: `none` when the text field is absent. -/
structure ChatRequestBody where
  text : Option (List Char)
deriving DecidableEq

/-- Response sent back by the /chat route. -/
inductive ChatResponse where
  | badRequest (status : Nat) (error : List Char)
  | okJson (payload : List Char)
  | serverError (status : Nat) (error message : List Char)
deriving DecidableEq

/-- The app.post route for /chat. -/
def postChat (pythonChat : List Char → Option (List Char))
    (body : ChatRequestBody) : ChatResponse × List (List Char) :=
  match body.text with
  | none => (ChatResponse.badRequest 400 ("No text provided".toList), [])
  | some t =>
    if t.isEmpty then (ChatResponse.badRequest 400 ("No text provided".toList), [])
    else
      match pythonChat t with
      | some payload => (ChatResponse.okJson payload, [t])
      | none =>
        (ChatResponse.serverError 500 ("Server error".toList)
          ("Python server failed to process the chat message".toList), [t])

/-- C10: a /chat request without a text field, or with an empty text, gets a
400 response with error "No text provided", and no request is issued to the
upstream Python language service. -/
theorem postChat_no_text_bad_request
    (pythonChat : List Char → Option (List Char)) (body : ChatRequestBody)
    (h : body.text = none ∨ body.text = some []) :
    postChat pythonChat body
      = (ChatResponse.badRequest 400 ("No text provided".toList), []) := by
  rcases h with h | h <;> simp [postChat, h]

/-- Witness for C10 at a body with no text field. -/
theorem postChat_no_text_bad_request_witness :
    postChat (fun t => some t) { text := none }
      = (ChatResponse.badRequest 400 ("No text provided".toList), []) :=
  postChat_no_text_bad_request (fun t => some t) { text := none } (Or.inl rfl)

/-! ## Gateway instruction execution -/

/-- The four task functions named by the system prompt of server.js (the spec
calls them createTask, listTasks, searchTask, deleteTaskById). -/
inductive TaskFunction where
  | createTodo
  | getAllTodos
  | searchTodo
  | deleteTodoById
deriving DecidableEq

/-- The input field of an action instruction, per the system prompt: an
object with title and optional due_date, or one or several numeric ids. -/
inductive ActionInput where
  | createArgs (title : List Char) (due_date : Option (List Char))
  | titleArg (title : List Char)
  | idArgs (ids : List Int)
deriving DecidableEq

/-- The instruction union produced from one language-service reply. -/
inductive Instruction where
  | action (fn : TaskFunction) (input : ActionInput)
  | output (message : List Char)
deriving DecidableEq

/-- One Task Store Façade call. -/
inductive StoreCall where
  | createTodo (title : List Char) (due_date : Option (List Char))
  | getAllTodos
  | searchTodo (title : List Char)
  | deleteTodoById (ids : List Int)
deriving DecidableEq

/-- Modelled from the spec: the gateway operation execute(instruction) of
§4.2. The executing agent loop itself is not in the repository sources (the
Node /chat route forwards to the Python backend, which is absent; server.js
keeps only its system prompt, parser and date normalizer), so the dispatch is
taken from the spec's words: an action instruction maps the function name to
one Task Store Façade call, resolving any due_date argument through the Date
Normalizer before calling createTodo; an output instruction makes no store
call. The result is the list of store calls issued, in order. The date
normalizer is the formatDateWithCurrentYear embedded above from server.js,
with the platform date parser and current date passed through. -/
def execute (dateParse : List Char → Option SimpleDate) (today : SimpleDate) :
    Instruction → List StoreCall
  | Instruction.output _ => []
  | Instruction.action TaskFunction.createTodo (ActionInput.createArgs title dd) =>
    [StoreCall.createTodo title
      (dd.map (formatDateWithCurrentYear dateParse today))]
  | Instruction.action TaskFunction.createTodo (ActionInput.titleArg title) =>
    [StoreCall.createTodo title none]
  | Instruction.action TaskFunction.getAllTodos _ => [StoreCall.getAllTodos]
  | Instruction.action TaskFunction.searchTodo (ActionInput.createArgs title _) =>
    [StoreCall.searchTodo title]
  | Instruction.action TaskFunction.searchTodo (ActionInput.titleArg title) =>
    [StoreCall.searchTodo title]
  | Instruction.action TaskFunction.deleteTodoById (ActionInput.idArgs ids) =>
    [StoreCall.deleteTodoById ids]
  | Instruction.action _ _ => []

/-- C1: executing an action instruction whose function is createTodo with a
due_date argument performs exactly one Task Store write, and its due-date
field is the Date Normalizer's output formatDateWithCurrentYear(due_date) —
by construction never the raw natural-language phrase when the two differ. -/
theorem execute_createTodo_normalizes_due_date
    (dateParse : List Char → Option SimpleDate) (today : SimpleDate)
    (title due_date : List Char) :
    execute dateParse today
        (Instruction.action TaskFunction.createTodo
          (ActionInput.createArgs title (some due_date)))
      = [StoreCall.createTodo title
          (some (formatDateWithCurrentYear dateParse today due_date))] :=
  rfl

/-! ## JSON values and a strict JSON.parse model

The parser follows the JSON grammar that JSON.parse accepts: whitespace is
space, tab, newline and carriage return; strings carry the usual escapes and
reject raw control characters; numbers are kept as their raw lexeme (their
numeric value plays no role here); the whole input must be consumed. Fuel
bounds the nesting recursion; one unit is spent per recursive entry, and the
initial fuel length + 1 dominates the nesting depth since every nesting
level consumes at least one character. -/

/-- A parsed JSON value. Object members stay in textual order. -/
inductive Json where
  | jnull
  | jbool (b : Bool)
  | jnum (lexeme : List Char)
  | jstr (s : List Char)
  | jarr (elems : List Json)
  | jobj (members : List (List Char × Json))

/-- JSON whitespace. -/
def jsonWsChar (c : Char) : Bool := c == ' ' || c == '\t' || c == '\n' || c == '\r'

/-- Drop leading JSON whitespace. -/
def skipWs : List Char → List Char
  | [] => []
  | c :: cs => if jsonWsChar c then skipWs cs else c :: cs

/-- Value of one hexadecimal digit. -/
def hexVal (c : Char) : Option Nat :=
  if 48 ≤ c.toNat ∧ c.toNat ≤ 57 then some (c.toNat - 48)
  else if 97 ≤ c.toNat ∧ c.toNat ≤ 102 then some (c.toNat - 87)
  else if 65 ≤ c.toNat ∧ c.toNat ≤ 70 then some (c.toNat - 55)
  else none

/-- Parse the body of a JSON string after its opening quote, returning the
decoded characters and the input following the closing quote. -/
def parseStringBody : List Char → Option (List Char × List Char)
  | [] => none
  | c :: cs =>
    if c == '"' then some ([], cs)
    else if c == '\\' then
      match cs with
      | [] => none
      | e :: cs2 =>
        let simpleEsc : Option Char :=
          if e == '"' then some '"'
          else if e == '\\' then some '\\'
          else if e == '/' then some '/'
          else if e == 'n' then some '\n'
          else if e == 't' then some '\t'
          else if e == 'r' then some '\r'
          else if e == 'b' then some (Char.ofNat 8)
          else if e == 'f' then some (Char.ofNat 12)
          else none
        match simpleEsc with
        | some ch => (parseStringBody cs2).map (fun p => (ch :: p.1, p.2))
        | none =>
          if e == 'u' then
            match cs2 with
            | h1 :: h2 :: h3 :: h4 :: cs3 =>
              match hexVal h1, hexVal h2, hexVal h3, hexVal h4 with
              | some a, some b, some c3, some d3 =>
                (parseStringBody cs3).map
                  (fun p => (Char.ofNat (((a * 16 + b) * 16 + c3) * 16 + d3) :: p.1, p.2))
              | _, _, _, _ => none
            | _ => none
          else none
    else if c.toNat < 32 then none
    else (parseStringBody cs).map (fun p => (c :: p.1, p.2))

/-- Parse the digits of a number component. -/
def spanDigits (s : List Char) : List Char × List Char :=
  s.span (fun c => isDigitCh c)

/-- Parse a JSON number lexeme (sign, integer part, optional fraction and
exponent), returning the raw lexeme and the rest of the input. -/
def parseNumberLex (s : List Char) : Option (List Char × List Char) :=
  let signPart : List Char × List Char :=
    match s with
    | '-' :: r => (['-'], r)
    | _ => ([], s)
  match signPart.2 with
  | [] => none
  | c :: r1 =>
    let intPart : Option (List Char × List Char) :=
      if c == '0' then some (['0'], r1)
      else if isDigitCh c then
        let p := spanDigits r1
        some (c :: p.1, p.2)
      else none
    match intPart with
    | none => none
    | some (ip, r2) =>
      let fracPart : Option (List Char × List Char) :=
        match r2 with
        | '.' :: r3 =>
          let p := spanDigits r3
          if p.1.isEmpty then none else some ('.' :: p.1, p.2)
        | _ => some ([], r2)
      match fracPart with
      | none => none
      | some (fp, r4) =>
        let expPart : Option (List Char × List Char) :=
          match r4 with
          | e :: r5 =>
            if e == 'e' || e == 'E' then
              let signedTail : List Char × List Char :=
                match r5 with
                | sgn :: r6 => if sgn == '+' || sgn == '-' then ([sgn], r6) else ([], r5)
                | [] => ([], r5)
              let p := spanDigits signedTail.2
              if p.1.isEmpty then none
              else some (e :: (signedTail.1 ++ p.1), p.2)
            else some ([], r4)
          | [] => some ([], r4)
        match expPart with
        | none => none
        | some (ep, r7) => some (signPart.1 ++ ip ++ fp ++ ep, r7)

mutual

/-- Parse one JSON value, returning it and the unconsumed input. -/
def parseVal : Nat → List Char → Option (Json × List Char)
  | 0, _ => none
  | fuel + 1, s =>
    match skipWs s with
    | [] => none
    | c :: cs =>
      if c == '{' then
        match skipWs cs with
        | '}' :: r => some (Json.jobj [], r)
        | r => (parseMembers fuel r).map (fun p => (Json.jobj p.1, p.2))
      else if c == '[' then
        match skipWs cs with
        | ']' :: r => some (Json.jarr [], r)
        | r => (parseItems fuel r).map (fun p => (Json.jarr p.1, p.2))
      else if c == '"' then
        (parseStringBody cs).map (fun p => (Json.jstr p.1, p.2))
      else if c == 't' then
        if ['r', 'u', 'e'].isPrefixOf cs then some (Json.jbool true, cs.drop 3) else none
      else if c == 'f' then
        if ['a', 'l', 's', 'e'].isPrefixOf cs then some (Json.jbool false, cs.drop 4)
        else none
      else if c == 'n' then
        if ['u', 'l', 'l'].isPrefixOf cs then some (Json.jnull, cs.drop 3) else none
      else if c == '-' || isDigitCh c then
        (parseNumberLex (c :: cs)).map (fun p => (Json.jnum p.1, p.2))
      else none

/-- Parse the elements of a non-empty array body up to the closing bracket. -/
def parseItems : Nat → List Char → Option (List Json × List Char)
  | 0, _ => none
  | fuel + 1, s =>
    match parseVal fuel s with
    | none => none
    | some (v, rest) =>
      match skipWs rest with
      | ',' :: r2 => (parseItems fuel r2).map (fun p => (v :: p.1, p.2))
      | ']' :: r2 => some ([v], r2)
      | _ => none

/-- Parse the members of a non-empty object body up to the closing brace. -/
def parseMembers : Nat → List Char → Option (List (List Char × Json) × List Char)
  | 0, _ => none
  | fuel + 1, s =>
    match skipWs s with
    | '"' :: cs =>
      match parseStringBody cs with
      | none => none
      | some (key, r1) =>
        match skipWs r1 with
        | ':' :: r2 =>
          match parseVal fuel r2 with
          | none => none
          | some (v, r3) =>
            match skipWs r3 with
            | ',' :: r4 => (parseMembers fuel r4).map (fun p => ((key, v) :: p.1, p.2))
            | '}' :: r4 => some ([(key, v)], r4)
            | _ => none
        | _ => none
    | _ => none

end

/-- The model of strict JSON.parse: the whole input, up to surrounding
whitespace, must be one JSON value. -/
def jsonParse (s : List Char) : Option Json :=
  match parseVal (s.length + 1) s with
  | some (v, rest) => if (skipWs rest).isEmpty then some v else none
  | none => none

/-! ## The Structured-Response Parser cleanJsonResponse (server.js) -/

/-- The backtick character. -/
def backtickChar : Char := Char.ofNat 96

/-- The opening fence marker with the json language tag. -/
def fenceJson : List Char := "```json".toList

/-- The bare fence marker. -/
def fenceBare : List Char := "```".toList

/-- Fence extraction of cleanJsonResponse: when a marker with the json tag is
present, take the text between the end of its first occurrence and the next
bare marker, trimmed; otherwise the same with the bare marker; otherwise the
reply unchanged. The indexOf result -1 for a missing closing marker flows
into substring, which swaps and clamps as JavaScript does. -/
def extractFenced (responseText : List Char) : List Char :=
  if jsIncludes responseText fenceJson then
    let jsonStart : Int := jsIndexOf responseText fenceJson + 7
    let jsonEnd : Int := jsIndexOfFrom responseText fenceBare jsonStart.toNat
    jsTrim (jsSubstring responseText jsonStart jsonEnd)
  else if jsIncludes responseText fenceBare then
    let jsonStart : Int := jsIndexOf responseText fenceBare + 3
    let jsonEnd : Int := jsIndexOfFrom responseText fenceBare jsonStart.toNat
    jsTrim (jsSubstring responseText jsonStart jsonEnd)
  else responseText

/-- The line filter of cleanJsonResponse: keep the lines that are non-blank
after trimming and do not start (untrimmed) with a line-comment marker. -/
def keepLine (line : List Char) : Bool :=
  !(jsTrim line).isEmpty && !(['/', '/'].isPrefixOf line) && !(['#'].isPrefixOf line)

/-- Join the kept lines back with newlines. -/
def filterJsonLines (t : List Char) : List Char :=
  List.intercalate ['\n'] ((splitLines t).filter keepLine)

/-- The text cleanJsonResponse hands to JSON.parse. -/
def cleanedCandidate (responseText : List Char) : List Char :=
  filterJsonLines (extractFenced responseText)

/-- The fixed fallback instruction of the catch branch. -/
def fallbackInstruction : Json :=
  Json.jobj
    [("type".toList, Json.jstr ("output".toList)),
     ("output".toList,
      Json.jstr ("Sorry, I encountered an error processing your request.".toList))]

/-- Parse the cleaned text, falling back on parse failure. -/
def jsonOrFallback (t : List Char) : Json :=
  match jsonParse t with
  | some j => j
  | none => fallbackInstruction

/-- The helper cleanJsonResponse of node-server/server.js: extract a fenced
block if one is present, drop comment-like and blank lines, strictly parse,
and on any parse failure return the fixed fallback output instruction. The
embedding is a total function: nothing escapes the catch. -/
def cleanJsonResponse (responseText : List Char) : Json :=
  jsonOrFallback (cleanedCandidate responseText)

/-- C2: whenever strict JSON parsing of the cleaned candidate (after fence
extraction and comment-line removal) fails, cleanJsonResponse returns exactly
the fixed fallback output instruction; being a Lean function, the embedding
never throws — it is total from raw text to a JSON instruction value. -/
theorem cleanJsonResponse_parse_failure_fallback (s : List Char)
    (h : jsonParse (cleanedCandidate s) = none) :
    cleanJsonResponse s = fallbackInstruction := by
  unfold cleanJsonResponse jsonOrFallback
  rw [h]

/-- Witness for C2 at the malformed reply "hello". -/
theorem cleanJsonResponse_parse_failure_fallback_witness :
    cleanJsonResponse ("hello".toList) = fallbackInstruction :=
  cleanJsonResponse_parse_failure_fallback ("hello".toList) rfl

/-! ## Fence extraction facts for C3 -/

lemma findAux_append_clean (pat' pre rest : List Char)
    (h : ∀ c ∈ pre, c ≠ backtickChar) (i : Nat) :
    findAux (backtickChar :: pat') (pre ++ rest) i
      = findAux (backtickChar :: pat') rest (i + pre.length) := by
  induction pre generalizing i with
  | nil => simp
  | cons a pre ih =>
    have hne : ¬(backtickChar = a) :=
      fun hh => (h a (List.mem_cons_self a pre)) hh.symm
    have hnp : ¬(backtickChar :: pat').isPrefixOf (a :: (pre ++ rest)) = true := by
      rw [List.isPrefixOf_iff_prefix, List.cons_prefix_cons]
      exact fun hcontra => hne hcontra.1
    have hrec := ih (fun c hc => h c (List.mem_cons_of_mem a hc)) (i + 1)
    calc findAux (backtickChar :: pat') ((a :: pre) ++ rest) i
        = findAux (backtickChar :: pat') (pre ++ rest) (i + 1) := by
          rw [List.cons_append, findAux, if_neg hnp]
      _ = findAux (backtickChar :: pat') rest ((i + 1) + pre.length) := hrec
      _ = findAux (backtickChar :: pat') rest (i + (a :: pre).length) := by
          congr 1
          simp
          omega

lemma findAux_here (pat rest : List Char) (i : Nat) (hne : pat ≠ []) :
    findAux pat (pat ++ rest) i = some i := by
  cases pat with
  | nil => exact absurd rfl hne
  | cons a as =>
    rw [List.cons_append, findAux,
      if_pos (List.isPrefixOf_iff_prefix.mpr ⟨rest, by simp⟩)]

lemma findAux_marker (pat' pre tail : List Char)
    (hpre : ∀ c ∈ pre, c ≠ backtickChar) :
    findAux (backtickChar :: pat') (pre ++ ((backtickChar :: pat') ++ tail)) 0
      = some pre.length := by
  rw [findAux_append_clean pat' pre _ hpre 0, findAux_here _ _ _ (by simp)]
  simp

lemma jsSubstring_exact (u v w : List Char) :
    jsSubstring (u ++ v ++ w) ((u.length : Nat) : Int)
      (((u.length + v.length : Nat) : Int)) = v := by
  unfold jsSubstring clampIdx
  have hlen : (u ++ v ++ w).length = u.length + v.length + w.length := by
    simp only [List.length_append]
  rw [if_neg (by omega), if_neg (by omega)]
  simp only [Int.toNat_natCast, hlen]
  have h1 : min (u.length) (u.length + v.length + w.length) = u.length := by omega
  have h2 : min (u.length + v.length) (u.length + v.length + w.length)
      = u.length + v.length := by omega
  rw [h1, h2]
  have h3 : min u.length (u.length + v.length) = u.length := by omega
  have h4 : max u.length (u.length + v.length) = u.length + v.length := by omega
  rw [h3, h4]
  have hdrop : (u ++ v ++ w).drop u.length = v ++ w := by
    rw [List.append_assoc, List.drop_left]
  rw [hdrop]
  have : u.length + v.length - u.length = v.length := by omega
  rw [this, List.take_left]

lemma extractFenced_json_split (pre inner post : List Char)
    (hpre : ∀ c ∈ pre, c ≠ backtickChar) (hin : ∀ c ∈ inner, c ≠ backtickChar) :
    extractFenced (pre ++ fenceJson ++ inner ++ fenceBare ++ post)
      = jsTrim inner := by
  have hfj : fenceJson = backtickChar :: ("``json".toList) := by decide
  have hfb : fenceBare = backtickChar :: ("``".toList) := by decide
  have hfind1 : findAux fenceJson
      (pre ++ fenceJson ++ inner ++ fenceBare ++ post) 0 = some pre.length := by
    rw [List.append_assoc, List.append_assoc, List.append_assoc]
    rw [hfj]
    exact findAux_marker _ pre _ hpre
  have hinc1 : jsIncludes (pre ++ fenceJson ++ inner ++ fenceBare ++ post)
      fenceJson = true := by
    unfold jsIncludes
    rw [hfind1]
    rfl
  have hidx1 : jsIndexOf (pre ++ fenceJson ++ inner ++ fenceBare ++ post)
      fenceJson = (pre.length : Int) := by
    unfold jsIndexOf
    rw [hfind1]
  have hdrop : (pre ++ fenceJson ++ inner ++ fenceBare ++ post).drop
      (pre.length + 7) = inner ++ fenceBare ++ post := by
    have hrw : pre ++ fenceJson ++ inner ++ fenceBare ++ post
        = (pre ++ fenceJson) ++ (inner ++ fenceBare ++ post) := by
      simp [List.append_assoc]
    rw [hrw]
    have hl : (pre ++ fenceJson).length = pre.length + 7 := by
      simp [fenceJson]
    rw [← hl, List.drop_left]
  have hfind2 : findAux fenceBare (inner ++ fenceBare ++ post) 0
      = some inner.length := by
    rw [List.append_assoc, hfb]
    exact findAux_marker _ inner _ hin
  have hidx2 : jsIndexOfFrom (pre ++ fenceJson ++ inner ++ fenceBare ++ post)
      fenceBare (pre.length + 7) = ((pre.length + 7 + inner.length : Nat) : Int) := by
    unfold jsIndexOfFrom
    rw [hdrop, hfind2]
  unfold extractFenced
  rw [if_pos hinc1]
  have htn : ((pre.length : Int) + 7).toNat = pre.length + 7 := by omega
  simp only [hidx1, htn, hidx2]
  have hs : pre ++ fenceJson ++ inner ++ fenceBare ++ post
      = ((pre ++ fenceJson) ++ inner ++ (fenceBare ++ post)) := by
    simp [List.append_assoc]
  have hstart : (pre.length : Int) + 7 = (((pre ++ fenceJson).length : Nat) : Int) := by
    simp [fenceJson]
  have hstop : ((pre.length + 7 + inner.length : Nat) : Int)
      = (((pre ++ fenceJson).length + inner.length : Nat) : Int) := by
    simp [fenceJson]
  rw [hs, hstart, hstop, jsSubstring_exact]

lemma extractFenced_bare_split (pre inner post : List Char)
    (hpre : ∀ c ∈ pre, c ≠ backtickChar) (hin : ∀ c ∈ inner, c ≠ backtickChar)
    (hnojson : jsIncludes (pre ++ fenceBare ++ inner ++ fenceBare ++ post)
      fenceJson = false) :
    extractFenced (pre ++ fenceBare ++ inner ++ fenceBare ++ post)
      = jsTrim inner := by
  have hfb : fenceBare = backtickChar :: ("``".toList) := by decide
  have hfind1 : findAux fenceBare
      (pre ++ fenceBare ++ inner ++ fenceBare ++ post) 0 = some pre.length := by
    rw [List.append_assoc, List.append_assoc, List.append_assoc]
    rw [hfb]
    exact findAux_marker _ pre _ hpre
  have hinc1 : jsIncludes (pre ++ fenceBare ++ inner ++ fenceBare ++ post)
      fenceBare = true := by
    unfold jsIncludes
    rw [hfind1]
    rfl
  have hidx1 : jsIndexOf (pre ++ fenceBare ++ inner ++ fenceBare ++ post)
      fenceBare = (pre.length : Int) := by
    unfold jsIndexOf
    rw [hfind1]
  have hdrop : (pre ++ fenceBare ++ inner ++ fenceBare ++ post).drop
      (pre.length + 3) = inner ++ fenceBare ++ post := by
    have hrw : pre ++ fenceBare ++ inner ++ fenceBare ++ post
        = (pre ++ fenceBare) ++ (inner ++ fenceBare ++ post) := by
      simp [List.append_assoc]
    rw [hrw]
    have hl : (pre ++ fenceBare).length = pre.length + 3 := by
      simp [fenceBare]
    rw [← hl, List.drop_left]
  have hfind2 : findAux fenceBare (inner ++ fenceBare ++ post) 0
      = some inner.length := by
    rw [List.append_assoc, hfb]
    exact findAux_marker _ inner _ hin
  have hidx2 : jsIndexOfFrom (pre ++ fenceBare ++ inner ++ fenceBare ++ post)
      fenceBare (pre.length + 3) = ((pre.length + 3 + inner.length : Nat) : Int) := by
    unfold jsIndexOfFrom
    rw [hdrop, hfind2]
  unfold extractFenced
  rw [if_neg (by rw [hnojson]; exact Bool.false_ne_true), if_pos hinc1]
  have htn : ((pre.length : Int) + 3).toNat = pre.length + 3 := by omega
  simp only [hidx1, htn, hidx2]
  have hs : pre ++ fenceBare ++ inner ++ fenceBare ++ post
      = ((pre ++ fenceBare) ++ inner ++ (fenceBare ++ post)) := by
    simp [List.append_assoc]
  have hstart : (pre.length : Int) + 3 = (((pre ++ fenceBare).length : Nat) : Int) := by
    simp [fenceBare]
  have hstop : ((pre.length + 3 + inner.length : Nat) : Int)
      = (((pre ++ fenceBare).length + inner.length : Nat) : Int) := by
    simp [fenceBare]
  rw [hs, hstart, hstop, jsSubstring_exact]

/-- C3: on a reply containing a fenced block, cleanJsonResponse processes
only the content between the first opening marker (with the json tag when
one is present, bare otherwise) and the next closing marker — the prose
outside the fence plays no part in the result; and on the spec's concrete
example the output instruction with message "hi" is produced. -/
theorem cleanJsonResponse_fenced_extraction :
    (∀ pre inner post : List Char,
        (∀ c ∈ pre, c ≠ backtickChar) → (∀ c ∈ inner, c ≠ backtickChar) →
        cleanJsonResponse (pre ++ fenceJson ++ inner ++ fenceBare ++ post)
          = jsonOrFallback (filterJsonLines (jsTrim inner)))
    ∧ (∀ pre inner post : List Char,
        (∀ c ∈ pre, c ≠ backtickChar) → (∀ c ∈ inner, c ≠ backtickChar) →
        jsIncludes (pre ++ fenceBare ++ inner ++ fenceBare ++ post)
            fenceJson = false →
        cleanJsonResponse (pre ++ fenceBare ++ inner ++ fenceBare ++ post)
          = jsonOrFallback (filterJsonLines (jsTrim inner)))
    ∧ cleanJsonResponse
        ("here you go:\n```json\n\x7b\"type\":\"output\",\"output\":\"hi\"\x7d\n```".toList)
        = Json.jobj
            [("type".toList, Json.jstr ("output".toList)),
             ("output".toList, Json.jstr ("hi".toList))] := by
  refine ⟨?_, ?_, rfl⟩
  · intro pre inner post hpre hin
    unfold cleanJsonResponse cleanedCandidate
    rw [extractFenced_json_split pre inner post hpre hin]
  · intro pre inner post hpre hin hnojson
    unfold cleanJsonResponse cleanedCandidate
    rw [extractFenced_bare_split pre inner post hpre hin hnojson]

/-- Witness for C3: the general fenced-extraction conjunct applied to the
spec's example, split as prose, fenced JSON content and empty tail. -/
theorem cleanJsonResponse_fenced_extraction_witness :
    cleanJsonResponse
        (("here you go:\n".toList) ++ fenceJson
          ++ ("\n\x7b\"type\":\"output\",\"output\":\"hi\"\x7d\n".toList)
          ++ fenceBare ++ [])
      = jsonOrFallback (filterJsonLines
          (jsTrim ("\n\x7b\"type\":\"output\",\"output\":\"hi\"\x7d\n".toList))) :=
  cleanJsonResponse_fenced_extraction.1
    ("here you go:\n".toList)
    ("\n\x7b\"type\":\"output\",\"output\":\"hi\"\x7d\n".toList)
    [] (by decide) (by decide)

end SpeechToPlan
